import Mathlib

/-!
Verification of `block_storage_heap` (foonathan/array).

We shallowly embed `src/include/foonathan/array/block_storage_heap.hpp`:
`block_storage_heap<Heap, GrowthPolicy>` owns an allocator handle and a raw
memory block and implements `reserve`, `shrink_to_fit`, `swap`, `block()` and
destruction on top of a pluggable `Heap` and `GrowthPolicy`.

Collaborator components (`memory_block`, `block_view`, the transfer algorithm
`uninitialized_destructive_move`, concrete heaps and growth policies) live in
headers that are not part of the given source; they are modelled from the
specification where needed, each such definition marked in its doc comment.

Modelling choices:
* machine integers (`size_type`) become `Nat`; addresses become `Nat`, with
  address `0` playing the role of the null pointer;
* constructed elements of type `T` are modelled by a partial map
  `mem : Nat → Option V` from byte addresses to element values (an element
  occupying `sizeof(T)` bytes is keyed by its start address);
* C++ exceptions become `Except Err`; side effects performed before a throw
  are kept (state is threaded through, not rolled back);
* every call the storage makes into the `Heap` is recorded in an event trace,
  and a ledger of live `(handle, block)` pairs is maintained at exactly those
  call sites, so that claims about which allocator calls happen (and about
  block ownership) can be stated.
-/

namespace BlockStorageHeap

/-- Error conditions of the storage layer, from the spec's error taxonomy:
allocation failure from the Heap, capacity exceeded from the GrowthPolicy,
and a failed element move during relocation. -/
inductive Err where
  | allocationFailure
  | capacityExceeded
  | elementTransferFailure
deriving DecidableEq, Repr

/-- Modelled from the spec: `memory_block` (header not in the given source)
is a raw byte range, `{address, size}`, address 0 standing for null. -/
structure MemoryBlock where
  addr : Nat
  size : Nat
deriving DecidableEq, Repr

/-- Modelled from the spec: the canonical empty block `{null, 0}`,
the value of a default-constructed `memory_block`. -/
def MemoryBlock.null : MemoryBlock := ⟨0, 0⟩

/-- Modelled from the spec: `memory_block::empty()`, true iff the size is 0. -/
def MemoryBlock.isEmpty (b : MemoryBlock) : Bool := b.size == 0

/-- Modelled from the spec: `block_view<T>` describes the constructed prefix
of a block as a base address and an element count (`{T*, count}`). -/
structure BlockView where
  base : Nat
  count : Nat
deriving DecidableEq, Repr

/-- Modelled from the spec: the `Heap` capability consumed by the storage,
with handle type `H` and internal allocator state `σ`:
`allocate(handle, bytes, alignment)` (which may fail), the no-throw
`deallocate(handle, block)`, and `max_size(handle)`. -/
structure HeapModel (H σ : Type) where
  allocate : H → σ → Nat → Nat → Except Err (MemoryBlock × σ)
  deallocate : H → σ → MemoryBlock → σ
  maxSize : H → Nat

/-- Modelled from the spec: the `GrowthPolicy` capability, a pure function
pair `growth_size(old, min_additional, max)` (which may signal
CapacityExceeded) and `shrink_size(old, live)`. -/
structure GrowthPolicyModel where
  growth_size : Nat → Nat → Nat → Except Err Nat
  shrink_size : Nat → Nat → Nat

/-- Contract of `Heap::allocate` from the spec: on success the returned block
has at least the requested size and a non-null address. -/
def HeapModel.AllocOk (hm : HeapModel H σ) : Prop :=
  ∀ h st n al b st', hm.allocate h st n al = .ok (b, st') →
    n ≤ b.size ∧ b.addr ≠ 0

/-- Behaviour of the concrete heaps shipped with the library: the returned
`memory_block` records exactly the requested byte size. -/
def HeapModel.AllocExact (hm : HeapModel H σ) : Prop :=
  ∀ h st n al b st', hm.allocate h st n al = .ok (b, st') → b.size = n

/-- Contract of `GrowthPolicy::growth_size` from the spec: any size it
returns is at least `old + min_additional` and at most the ceiling. -/
def GrowthPolicyModel.GrowthOk (g : GrowthPolicyModel) : Prop :=
  ∀ o m mx r, g.growth_size o m mx = .ok r → o + m ≤ r ∧ r ≤ mx

/-- Contract of `GrowthPolicy::shrink_size` from the spec: it never returns
a size smaller than the live byte count. -/
def GrowthPolicyModel.ShrinkOk (g : GrowthPolicyModel) : Prop :=
  ∀ o l, l ≤ g.shrink_size o l

/-- Heap calls made by the storage, recorded for verification:
each `Heap::allocate` and each `Heap::deallocate` invocation. -/
inductive HEvent where
  | alloc (bytes alignment : Nat)
  | dealloc (b : MemoryBlock)
deriving DecidableEq, Repr

/-- World state threaded through the storage operations: the allocator's
internal state, the constructed-element memory, the trace of heap calls, and
the ledger of currently allocated `(handle, block)` pairs (updated at exactly
the `Heap::allocate` / `Heap::deallocate` call sites). -/
structure World (H σ V : Type) where
  heapSt : σ
  mem : Nat → Option V
  events : List HEvent
  live : List (H × MemoryBlock)

/-- State of a `block_storage_heap` object: the stored allocator argument
(`argument_storage`) and the owned block `block_`. -/
structure Storage (H : Type) where
  arg : H
  block : MemoryBlock
deriving DecidableEq, Repr

/-- Constructor `block_storage_heap(arg)`: stores the argument; the owned
block `block_` is default-constructed, i.e. the empty block. -/
def mkStorage (arg : H) : Storage H := ⟨arg, MemoryBlock.null⟩

/-- Marks the element at start address `a` constructed with value `v`. -/
def constructAt (m : Nat → Option V) (a : Nat) (v : V) : Nat → Option V :=
  fun x => if x = a then some v else m x

/-- Marks the element at start address `a` destroyed. -/
def destroyAt (m : Nat → Option V) (a : Nat) : Nat → Option V :=
  fun x => if x = a then none else m x

/-- Destroys the `k` elements of size `szT` at base address `base`
(used when a partially filled destination must be cleaned up). -/
def destroyRange (szT base : Nat) : Nat → (Nat → Option V) → (Nat → Option V)
  | 0, m => m
  | Nat.succ k, m => destroyRange szT base k (destroyAt m (base + k * szT))

/-- Modelled from the spec: the transfer algorithm
`uninitialized_destructive_move` (its header is not in the given source).
`done` elements have already been transferred, `rem` remain: for each index,
move-construct the target element from the source element (`mv` is the move
constructor, which may fail), then destroy the source element.  If a move
fails, the elements already constructed in the target are destroyed and the
error propagates; the already-destroyed source elements are not restored.
Reading a source slot that holds no constructed element is undefined
behaviour in C++; the model reports it as a transfer failure. -/
def udMoveGo (mv : V → Except Err V) (szT src tgt : Nat) :
    Nat → Nat → (Nat → Option V) → Except Err Unit × (Nat → Option V)
  | _, 0, m => (.ok (), m)
  | done, Nat.succ rem, m =>
    match m (src + done * szT) with
    | none => (.error .elementTransferFailure, destroyRange szT tgt done m)
    | some v =>
      match mv v with
      | .error e => (.error e, destroyRange szT tgt done m)
      | .ok v' =>
        udMoveGo mv szT src tgt (done + 1) rem
          (destroyAt (constructAt m (tgt + done * szT) v') (src + done * szT))

/-- Modelled from the spec: `uninitialized_destructive_move(begin, end, block)`
relocates the `count` elements starting at `src` into the start of the block
at address `tgt`. -/
def udMove (mv : V → Except Err V) (szT src tgt count : Nat)
    (m : Nat → Option V) : Except Err Unit × (Nat → Option V) :=
  udMoveGo mv szT src tgt 0 count m

/-- Private helper `deallocate_block`: calls `Heap::deallocate` unless the
block is empty (the call is recorded in the trace and the ledger). -/
def deallocate_block (hm : HeapModel H σ) [DecidableEq H] [DecidableEq σ]
    (handle : H) (blk : MemoryBlock) (w : World H σ V) : World H σ V :=
  if blk.isEmpty then w
  else
    { w with
      heapSt := hm.deallocate handle w.heapSt blk
      events := w.events ++ [HEvent.dealloc blk]
      live := w.live.erase (handle, blk) }

/-- Private helper `allocate_block`: a request of 0 bytes yields the empty
block without touching the allocator; otherwise `Heap::allocate` is invoked
(recorded in the trace, and in the ledger on success). -/
def allocate_block (hm : HeapModel H σ) [DecidableEq H] [DecidableEq σ]
    (handle : H) (size alignment : Nat) (w : World H σ V) :
    Except Err MemoryBlock × World H σ V :=
  if size = 0 then (.ok MemoryBlock.null, w)
  else
    match hm.allocate handle w.heapSt size alignment with
    | .ok (b, st') =>
      (.ok b,
        { w with
          heapSt := st'
          events := w.events ++ [HEvent.alloc size alignment]
          live := w.live ++ [(handle, b)] })
    | .error e =>
      (.error e, { w with events := w.events ++ [HEvent.alloc size alignment] })

/-- Private helper `change_block`: relocate `constructed` into `new_block`;
on failure deallocate `new_block` and propagate the error leaving `block_`
unchanged; on success deallocate the old `block_` and adopt `new_block`. -/
def change_block (hm : HeapModel H σ) [DecidableEq H] [DecidableEq σ]
    (mv : V → Except Err V) (szT : Nat) (s : Storage H)
    (constructed : BlockView) (new_block : MemoryBlock) (w : World H σ V) :
    Except Err Unit × Storage H × World H σ V :=
  match udMove mv szT constructed.base new_block.addr constructed.count w.mem with
  | (.error e, m') =>
    (.error e, s, deallocate_block hm s.arg new_block { w with mem := m' })
  | (.ok _, m') =>
    let w' := deallocate_block hm s.arg s.block { w with mem := m' }
    (.ok (), { s with block := new_block }, w')

/-- Member `reserve(min_additional_bytes, constructed)`: ask the
`GrowthPolicy` for a new size (with `max_size` as ceiling), allocate a block
of that size aligned for `T`, and hand over to `change_block`. -/
def reserve (hm : HeapModel H σ) [DecidableEq H] [DecidableEq σ]
    (g : GrowthPolicyModel) (mv : V → Except Err V) (szT alT : Nat)
    (s : Storage H) (min_additional_bytes : Nat) (constructed : BlockView)
    (w : World H σ V) : Except Err Unit × Storage H × World H σ V :=
  match g.growth_size s.block.size min_additional_bytes (hm.maxSize s.arg) with
  | .error e => (.error e, s, w)
  | .ok new_size =>
    match allocate_block hm s.arg new_size alT w with
    | (.error e, w') => (.error e, s, w')
    | (.ok new_block, w') => change_block hm mv szT s constructed new_block w'

/-- Member `shrink_to_fit(constructed)`: ask the `GrowthPolicy` for the
shrink target given the live byte count, allocate, and hand over to
`change_block`. -/
def shrink_to_fit (hm : HeapModel H σ) [DecidableEq H] [DecidableEq σ]
    (g : GrowthPolicyModel) (mv : V → Except Err V) (szT alT : Nat)
    (s : Storage H) (constructed : BlockView) (w : World H σ V) :
    Except Err Unit × Storage H × World H σ V :=
  let byte_size := constructed.count * szT
  let new_size := g.shrink_size s.block.size byte_size
  match allocate_block hm s.arg new_size alT w with
  | (.error e, w') => (.error e, s, w')
  | (.ok new_block, w') => change_block hm mv szT s constructed new_block w'

/-- Static member `swap`: exchanges the stored arguments
(`swap_argument`), the blocks (`std::swap(lhs.block_, rhs.block_)`) and the
caller's views (`std::swap(lhs_constructed, rhs_constructed)`).  It is a pure
exchange: it takes no heap, performs no allocation and touches no element. -/
def swapStorage (lhs : Storage H) (lhs_constructed : BlockView)
    (rhs : Storage H) (rhs_constructed : BlockView) :
    Storage H × BlockView × Storage H × BlockView :=
  (⟨rhs.arg, rhs.block⟩, rhs_constructed, ⟨lhs.arg, lhs.block⟩, lhs_constructed)

/-- Destructor `~block_storage_heap()`: deallocates the current block
(a no-op when it is empty); it is a total function, it cannot fail. -/
def destruct (hm : HeapModel H σ) [DecidableEq H] [DecidableEq σ]
    (s : Storage H) (w : World H σ V) : World H σ V :=
  deallocate_block hm s.arg s.block w

/-! Concrete collaborator instances, used to exercise the storage on
concrete runs. -/

/-- Modelled from the spec: a deterministic heap whose state is a bump
allocator counter; every allocation succeeds and returns a block recording
exactly the requested size at a fresh non-null address. -/
def testHeap : HeapModel Unit Nat where
  allocate := fun _ st n _ => .ok (⟨st + 1, n⟩, st + 1 + n)
  deallocate := fun _ st _ => st
  maxSize := fun _ => 2 ^ 20

/-- Modelled from the spec: a heap with failure injection; the state carries
a bump counter and a countdown, and allocation fails once the countdown
reaches zero. -/
def failHeap : HeapModel Unit (Nat × Nat) where
  allocate := fun _ st n _ =>
    if st.2 = 0 then .error .allocationFailure
    else .ok (⟨st.1 + 1, n⟩, (st.1 + 1 + n, st.2 - 1))
  deallocate := fun _ st _ => st
  maxSize := fun _ => 2 ^ 20

/-- Modelled from the spec: the typical growth law, geometric doubling
clamped to the request and the ceiling, with tight-fit shrink. -/
def doublingPolicy : GrowthPolicyModel where
  growth_size := fun o m mx =>
    if mx < o + m then .error .capacityExceeded
    else .ok (min (max (2 * o) (o + m)) mx)
  shrink_size := fun _ l => l

lemma testHeap_allocOk : testHeap.AllocOk := by
  intro h st n al b st' hab
  simp only [testHeap, Except.ok.injEq, Prod.mk.injEq] at hab
  obtain ⟨rfl, -⟩ := hab
  exact ⟨Nat.le_refl n, Nat.succ_ne_zero st⟩

lemma testHeap_allocExact : testHeap.AllocExact := by
  intro h st n al b st' hab
  simp only [testHeap, Except.ok.injEq, Prod.mk.injEq] at hab
  obtain ⟨rfl, -⟩ := hab
  rfl

lemma failHeap_allocOk : failHeap.AllocOk := by
  intro h st n al b st' hab
  simp only [failHeap] at hab
  split at hab
  · exact absurd hab (by simp)
  · simp only [Except.ok.injEq, Prod.mk.injEq] at hab
    obtain ⟨rfl, -⟩ := hab
    exact ⟨Nat.le_refl n, Nat.succ_ne_zero st.1⟩

lemma doublingPolicy_growthOk : doublingPolicy.GrowthOk := by
  intro o m mx r hr
  simp only [doublingPolicy] at hr
  split at hr
  · exact absurd hr (by simp)
  · simp only [Except.ok.injEq] at hr
    subst hr
    refine ⟨le_min (le_max_of_le_right (Nat.le_refl _)) (by omega), min_le_right _ _⟩

lemma doublingPolicy_shrinkOk : doublingPolicy.ShrinkOk := by
  intro o l
  exact Nat.le_refl l

/-! Lemmas about the element-memory primitives and the transfer algorithm. -/

lemma constructAt_self (m : Nat → Option V) (a : Nat) (v : V) :
    constructAt m a v a = some v := by
  simp [constructAt]

lemma constructAt_ne (m : Nat → Option V) {a x : Nat} (v : V) (h : x ≠ a) :
    constructAt m a v x = m x := by
  simp [constructAt, h]

lemma destroyAt_self (m : Nat → Option V) (a : Nat) : destroyAt m a a = none := by
  simp [destroyAt]

lemma destroyAt_ne (m : Nat → Option V) {a x : Nat} (h : x ≠ a) :
    destroyAt m a x = m x := by
  simp [destroyAt, h]

/-- Element slots at stride `szT > 0` from a common base are distinct for
distinct indices. -/
lemma slot_inj {base szT i j : Nat} (hsz : 0 < szT)
    (h : base + i * szT = base + j * szT) : i = j := by
  have h2 : i * szT = j * szT := by omega
  exact Nat.eq_of_mul_eq_mul_right hsz h2

lemma destroyRange_of_forall_ne {szT base : Nat} :
    ∀ (k : Nat) (m : Nat → Option V) (a : Nat),
      (∀ i, i < k → a ≠ base + i * szT) →
      destroyRange szT base k m a = m a := by
  intro k
  induction k with
  | zero => intro m a _; rfl
  | succ k ih =>
    intro m a h
    have hrec := ih (destroyAt m (base + k * szT)) a fun i hi => h i (Nat.lt_succ_of_lt hi)
    rw [destroyRange, hrec, destroyAt_ne _ (h k (Nat.lt_succ_self k))]

lemma destroyRange_of_lt {szT base : Nat} :
    ∀ (k : Nat) (m : Nat → Option V) (i : Nat), i < k →
      destroyRange szT base k m (base + i * szT) = none := by
  intro k
  induction k with
  | zero => intro m i hi; omega
  | succ k ih =>
    intro m i hi
    by_cases hik : i < k
    · rw [destroyRange]
      exact ih _ i hik
    · have hi' : i = k := by omega
      subst hi'
      by_cases hin : ∀ j, j < i → (base + i * szT) ≠ base + j * szT
      · rw [destroyRange, destroyRange_of_forall_ne i _ _ hin, destroyAt_self]
      · push_neg at hin
        obtain ⟨j, hj, hje⟩ := hin
        rw [hje, destroyRange]
        exact ih _ j hj

/-- Key lemma about the transfer loop: when the move constructor always
succeeds and preserves the value, and the remaining source and target slots
are pairwise disjoint, the loop succeeds, fills the target slots in order
with the source values, destroys the source slots and touches nothing else. -/
lemma udMoveGo_ok {mv : V → Except Err V} (hmv : ∀ v, mv v = .ok v)
    {szT : Nat} (hsz : 0 < szT) (src tgt : Nat) (vals : Nat → V) :
    ∀ (rem done : Nat) (m : Nat → Option V),
      (∀ i, done ≤ i → i < done + rem → m (src + i * szT) = some (vals i)) →
      (∀ i j, done ≤ i → i < done + rem → done ≤ j → j < done + rem →
        src + i * szT ≠ tgt + j * szT) →
      (udMoveGo mv szT src tgt done rem m).1 = .ok () ∧
      (∀ i, done ≤ i → i < done + rem →
        (udMoveGo mv szT src tgt done rem m).2 (tgt + i * szT) = some (vals i)) ∧
      (∀ i, done ≤ i → i < done + rem →
        (udMoveGo mv szT src tgt done rem m).2 (src + i * szT) = none) ∧
      (∀ a, (∀ i, done ≤ i → i < done + rem → a ≠ tgt + i * szT ∧ a ≠ src + i * szT) →
        (udMoveGo mv szT src tgt done rem m).2 a = m a) := by
  intro rem
  induction rem with
  | zero =>
    intro done m _ _
    refine ⟨rfl, fun i h1 h2 => absurd h2 (by omega),
      fun i h1 h2 => absurd h2 (by omega), fun a _ => rfl⟩
  | succ rem ih =>
    intro done m hlive hdisj
    have hm0 : m (src + done * szT) = some (vals done) :=
      hlive done (Nat.le_refl done) (by omega)
    set m1 := destroyAt (constructAt m (tgt + done * szT) (vals done))
      (src + done * szT) with hm1def
    have hstep : udMoveGo mv szT src tgt done (rem + 1) m =
        udMoveGo mv szT src tgt (done + 1) rem m1 := by
      simp only [udMoveGo, hm0, hmv]
    have hlive1 : ∀ i, done + 1 ≤ i → i < done + 1 + rem →
        m1 (src + i * szT) = some (vals i) := by
      intro i h1 h2
      have hne1 : src + i * szT ≠ src + done * szT := by
        intro h
        have := slot_inj hsz h
        omega
      have hne2 : src + i * szT ≠ tgt + done * szT :=
        hdisj i done (by omega) (by omega) (Nat.le_refl done) (by omega)
      rw [hm1def, destroyAt_ne _ hne1, constructAt_ne _ _ hne2]
      exact hlive i (by omega) (by omega)
    have hdisj1 : ∀ i j, done + 1 ≤ i → i < done + 1 + rem → done + 1 ≤ j →
        j < done + 1 + rem → src + i * szT ≠ tgt + j * szT := by
      intro i j h1 h2 h3 h4
      exact hdisj i j (by omega) (by omega) (by omega) (by omega)
    obtain ⟨hok, htgt, hsrc, hunch⟩ := ih (done + 1) m1 hlive1 hdisj1
    refine ⟨?_, ?_, ?_, ?_⟩
    · rw [hstep]; exact hok
    · intro i h1 h2
      rw [hstep]
      rcases Nat.lt_or_ge done i with hlt | hge
      · exact htgt i (by omega) (by omega)
      · have hi' : i = done := by omega
        subst hi'
        have hcond : ∀ k, i + 1 ≤ k → k < i + 1 + rem →
            tgt + i * szT ≠ tgt + k * szT ∧ tgt + i * szT ≠ src + k * szT := by
          intro k hk1 hk2
          constructor
          · intro h
            have := slot_inj hsz h
            omega
          · exact (hdisj k i (by omega) (by omega) (Nat.le_refl i) (by omega)).symm
        rw [hunch _ hcond, hm1def,
          destroyAt_ne _ (hdisj i i (Nat.le_refl i) (by omega) (Nat.le_refl i)
            (by omega)).symm,
          constructAt_self]
    · intro i h1 h2
      rw [hstep]
      rcases Nat.lt_or_ge done i with hlt | hge
      · exact hsrc i (by omega) (by omega)
      · have hi' : i = done := by omega
        subst hi'
        have hcond : ∀ k, i + 1 ≤ k → k < i + 1 + rem →
            src + i * szT ≠ tgt + k * szT ∧ src + i * szT ≠ src + k * szT := by
          intro k hk1 hk2
          refine ⟨hdisj i k (Nat.le_refl i) (by omega) (by omega) (by omega), ?_⟩
          intro h
          have := slot_inj hsz h
          omega
        rw [hunch _ hcond, hm1def, destroyAt_self]
    · intro a ha
      rw [hstep, hunch a fun i h1 h2 => ha i (by omega) (by omega), hm1def,
        destroyAt_ne _ (ha done (Nat.le_refl done) (by omega)).2,
        constructAt_ne _ _ (ha done (Nat.le_refl done) (by omega)).1]

/-- Specialisation of the loop lemma to a whole `uninitialized_destructive_move`
call: all `count` elements are transferred in order, sources destroyed,
other addresses untouched. -/
lemma udMove_ok {mv : V → Except Err V} (hmv : ∀ v, mv v = .ok v)
    {szT : Nat} (hsz : 0 < szT) (src tgt count : Nat) (vals : Nat → V)
    (m : Nat → Option V)
    (hlive : ∀ i, i < count → m (src + i * szT) = some (vals i))
    (hdisj : ∀ i j, i < count → j < count → src + i * szT ≠ tgt + j * szT) :
    (udMove mv szT src tgt count m).1 = .ok () ∧
    (∀ i, i < count → (udMove mv szT src tgt count m).2 (tgt + i * szT) = some (vals i)) ∧
    (∀ i, i < count → (udMove mv szT src tgt count m).2 (src + i * szT) = none) ∧
    (∀ a, (∀ i, i < count → a ≠ tgt + i * szT ∧ a ≠ src + i * szT) →
      (udMove mv szT src tgt count m).2 a = m a) := by
  have h := udMoveGo_ok hmv hsz src tgt vals count 0 m
    (fun i _ h2 => hlive i (by omega))
    (fun i j _ h2 _ h4 => hdisj i j (by omega) (by omega))
  exact ⟨h.1, fun i hi => h.2.1 i (Nat.zero_le i) (by omega),
    fun i hi => h.2.2.1 i (Nat.zero_le i) (by omega),
    fun a ha => h.2.2.2 a fun i _ hi => ha i (by omega)⟩

/-! Reduction lemmas for the storage operations. -/

lemma allocate_block_zero (hm : HeapModel H σ) [DecidableEq H] [DecidableEq σ]
    (h : H) (al : Nat) (w : World H σ V) :
    allocate_block hm h 0 al w = (.ok MemoryBlock.null, w) := rfl

lemma allocate_block_pos_ok (hm : HeapModel H σ) [DecidableEq H] [DecidableEq σ]
    (h : H) {n : Nat} (hn : n ≠ 0) (al : Nat) (w : World H σ V)
    {b : MemoryBlock} {st' : σ}
    (ha : hm.allocate h w.heapSt n al = .ok (b, st')) :
    allocate_block hm h n al w =
      (.ok b,
        { w with
          heapSt := st'
          events := w.events ++ [HEvent.alloc n al]
          live := w.live ++ [(h, b)] }) := by
  simp only [allocate_block, if_neg hn, ha]

lemma allocate_block_pos_err (hm : HeapModel H σ) [DecidableEq H] [DecidableEq σ]
    (h : H) {n : Nat} (hn : n ≠ 0) (al : Nat) (w : World H σ V) {e : Err}
    (ha : hm.allocate h w.heapSt n al = .error e) :
    allocate_block hm h n al w =
      (.error e, { w with events := w.events ++ [HEvent.alloc n al] }) := by
  simp only [allocate_block, if_neg hn, ha]

lemma deallocate_block_mem (hm : HeapModel H σ) [DecidableEq H] [DecidableEq σ]
    (h : H) (b : MemoryBlock) (w : World H σ V) :
    (deallocate_block hm h b w).mem = w.mem := by
  unfold deallocate_block
  split <;> rfl

lemma deallocate_block_empty (hm : HeapModel H σ) [DecidableEq H] [DecidableEq σ]
    (h : H) {b : MemoryBlock} (hb : b.isEmpty = true) (w : World H σ V) :
    deallocate_block hm h b w = w := by
  simp only [deallocate_block, hb, if_pos]

lemma deallocate_block_nonempty (hm : HeapModel H σ) [DecidableEq H] [DecidableEq σ]
    (h : H) {b : MemoryBlock} (hb : b.isEmpty = false) (w : World H σ V) :
    deallocate_block hm h b w =
      { w with
        heapSt := hm.deallocate h w.heapSt b
        events := w.events ++ [HEvent.dealloc b]
        live := w.live.erase (h, b) } := by
  simp only [deallocate_block, hb, Bool.false_eq_true, if_neg, not_false_iff]

lemma change_block_ud_ok (hm : HeapModel H σ) [DecidableEq H] [DecidableEq σ]
    (mv : V → Except Err V) (szT : Nat) (s : Storage H) (c : BlockView)
    (nb : MemoryBlock) (w : World H σ V) {u : Unit} {m' : Nat → Option V}
    (hud : udMove mv szT c.base nb.addr c.count w.mem = (.ok u, m')) :
    change_block hm mv szT s c nb w =
      (.ok (), { s with block := nb },
        deallocate_block hm s.arg s.block { w with mem := m' }) := by
  simp only [change_block, hud]

lemma change_block_ud_err (hm : HeapModel H σ) [DecidableEq H] [DecidableEq σ]
    (mv : V → Except Err V) (szT : Nat) (s : Storage H) (c : BlockView)
    (nb : MemoryBlock) (w : World H σ V) {e : Err} {m' : Nat → Option V}
    (hud : udMove mv szT c.base nb.addr c.count w.mem = (.error e, m')) :
    change_block hm mv szT s c nb w =
      (.error e, s, deallocate_block hm s.arg nb { w with mem := m' }) := by
  simp only [change_block, hud]

lemma reserve_growth_err (hm : HeapModel H σ) [DecidableEq H] [DecidableEq σ]
    (g : GrowthPolicyModel) (mv : V → Except Err V) (szT alT : Nat)
    (s : Storage H) (minb : Nat) (c : BlockView) (w : World H σ V) {e : Err}
    (hg : g.growth_size s.block.size minb (hm.maxSize s.arg) = .error e) :
    reserve hm g mv szT alT s minb c w = (.error e, s, w) := by
  simp only [reserve, hg]

lemma reserve_alloc_ok (hm : HeapModel H σ) [DecidableEq H] [DecidableEq σ]
    (g : GrowthPolicyModel) (mv : V → Except Err V) (szT alT : Nat)
    (s : Storage H) (minb : Nat) (c : BlockView) (w : World H σ V)
    {ns : Nat} {nb : MemoryBlock} {w1 : World H σ V}
    (hg : g.growth_size s.block.size minb (hm.maxSize s.arg) = .ok ns)
    (hab : allocate_block hm s.arg ns alT w = (.ok nb, w1)) :
    reserve hm g mv szT alT s minb c w = change_block hm mv szT s c nb w1 := by
  simp only [reserve, hg, hab]

lemma reserve_alloc_err (hm : HeapModel H σ) [DecidableEq H] [DecidableEq σ]
    (g : GrowthPolicyModel) (mv : V → Except Err V) (szT alT : Nat)
    (s : Storage H) (minb : Nat) (c : BlockView) (w : World H σ V)
    {ns : Nat} {e : Err} {w1 : World H σ V}
    (hg : g.growth_size s.block.size minb (hm.maxSize s.arg) = .ok ns)
    (hab : allocate_block hm s.arg ns alT w = (.error e, w1)) :
    reserve hm g mv szT alT s minb c w = (.error e, s, w1) := by
  simp only [reserve, hg, hab]

lemma shrink_alloc_ok (hm : HeapModel H σ) [DecidableEq H] [DecidableEq σ]
    (g : GrowthPolicyModel) (mv : V → Except Err V) (szT alT : Nat)
    (s : Storage H) (c : BlockView) (w : World H σ V)
    {nb : MemoryBlock} {w1 : World H σ V}
    (hab : allocate_block hm s.arg (g.shrink_size s.block.size (c.count * szT)) alT w
      = (.ok nb, w1)) :
    shrink_to_fit hm g mv szT alT s c w = change_block hm mv szT s c nb w1 := by
  simp only [shrink_to_fit, hab]

lemma shrink_alloc_err (hm : HeapModel H σ) [DecidableEq H] [DecidableEq σ]
    (g : GrowthPolicyModel) (mv : V → Except Err V) (szT alT : Nat)
    (s : Storage H) (c : BlockView) (w : World H σ V)
    {e : Err} {w1 : World H σ V}
    (hab : allocate_block hm s.arg (g.shrink_size s.block.size (c.count * szT)) alT w
      = (.error e, w1)) :
    shrink_to_fit hm g mv szT alT s c w = (.error e, s, w1) := by
  simp only [shrink_to_fit, hab]

/-- Full characterisation of a successful `reserve` call (contracts assumed,
move construction value-preserving and infallible, view valid and live,
allocated block disjoint from the live elements): the new block has room for
the old live bytes plus the request, holds all transferred values in order,
and the old element storage is destroyed. -/
lemma reserve_ok_spec (hm : HeapModel H σ) [DecidableEq H] [DecidableEq σ]
    (g : GrowthPolicyModel) (mv : V → Except Err V) (szT alT : Nat)
    (s : Storage H) (minb : Nat) (c : BlockView) (w : World H σ V)
    (vals : Nat → V)
    (hAlloc : hm.AllocOk) (hGrowth : g.GrowthOk)
    (hmv : ∀ v, mv v = .ok v) (hsz : 0 < szT)
    (hview : c.count * szT ≤ s.block.size)
    (hlive : ∀ i, i < c.count → w.mem (c.base + i * szT) = some (vals i))
    (hok : (reserve hm g mv szT alT s minb c w).1 = .ok ())
    (hdisj : ∀ i j, i < c.count → j < c.count →
      c.base + i * szT ≠ (reserve hm g mv szT alT s minb c w).2.1.block.addr + j * szT) :
    minb + c.count * szT ≤ (reserve hm g mv szT alT s minb c w).2.1.block.size ∧
    (∀ i, i < c.count →
      (reserve hm g mv szT alT s minb c w).2.2.mem
        ((reserve hm g mv szT alT s minb c w).2.1.block.addr + i * szT) = some (vals i)) ∧
    (∀ i, i < c.count →
      (reserve hm g mv szT alT s minb c w).2.2.mem (c.base + i * szT) = none) := by
  cases hgrow : g.growth_size s.block.size minb (hm.maxSize s.arg) with
  | error e =>
    rw [reserve_growth_err hm g mv szT alT s minb c w hgrow] at hok
    exact absurd hok (by simp)
  | ok ns =>
    obtain ⟨hns1, hns2⟩ := hGrowth _ _ _ _ hgrow
    by_cases h0 : ns = 0
    · subst h0
      have hL0 : c.count * szT = 0 := by omega
      have hc0 : c.count = 0 := by
        rcases Nat.mul_eq_zero.mp hL0 with h | h
        · exact h
        · omega
      have hud : udMove mv szT c.base MemoryBlock.null.addr c.count w.mem
          = (.ok (), w.mem) := by
        rw [hc0]; rfl
      rw [reserve_alloc_ok hm g mv szT alT s minb c w hgrow
        (allocate_block_zero hm s.arg alT w),
        change_block_ud_ok hm mv szT s c _ w hud]
      refine ⟨?_, ?_, ?_⟩
      · simp only [MemoryBlock.null]
        omega
      · intro i hi
        omega
      · intro i hi
        omega
    · cases halloc : hm.allocate s.arg w.heapSt ns alT with
      | error e =>
        rw [reserve_alloc_err hm g mv szT alT s minb c w hgrow
          (allocate_block_pos_err hm s.arg h0 alT w halloc)] at hok
        exact absurd hok (by simp)
      | ok p =>
        obtain ⟨nb, st'⟩ := p
        have hr1 := reserve_alloc_ok hm g mv szT alT s minb c w hgrow
          (allocate_block_pos_ok hm s.arg h0 alT w halloc)
        cases hud : udMove mv szT c.base nb.addr c.count w.mem with
        | mk res m' =>
          cases res with
          | error e =>
            rw [hr1, change_block_ud_err hm mv szT s c nb
              { heapSt := st', mem := w.mem,
                events := w.events ++ [HEvent.alloc ns alT],
                live := w.live ++ [(s.arg, nb)] } hud] at hok
            exact absurd hok (by simp)
          | ok u =>
            have hr2 : reserve hm g mv szT alT s minb c w =
                (.ok (), { s with block := nb },
                  deallocate_block hm s.arg s.block
                    { heapSt := st', mem := m',
                      events := w.events ++ [HEvent.alloc ns alT],
                      live := w.live ++ [(s.arg, nb)] }) := by
              rw [hr1, change_block_ud_ok hm mv szT s c nb
                { heapSt := st', mem := w.mem,
                  events := w.events ++ [HEvent.alloc ns alT],
                  live := w.live ++ [(s.arg, nb)] } hud]
            rw [hr2] at hdisj
            simp only at hdisj
            obtain ⟨-, htgt, hsrc, -⟩ :=
              udMove_ok hmv hsz c.base nb.addr c.count vals w.mem hlive hdisj
            rw [hud] at htgt hsrc
            obtain ⟨hsize, -⟩ := hAlloc _ _ _ _ _ _ halloc
            refine ⟨?_, ?_, ?_⟩
            · rw [hr2]
              simp only
              omega
            · intro i hi
              rw [hr2]
              simp only [deallocate_block_mem]
              exact htgt i hi
            · intro i hi
              rw [hr2]
              simp only [deallocate_block_mem]
              exact hsrc i hi

/-- Size of the block held after a successful `shrink_to_fit`, for heaps
whose returned blocks record exactly the requested size: it is the
`GrowthPolicy` shrink target for the current size and live byte count. -/
lemma shrink_ok_size (hm : HeapModel H σ) [DecidableEq H] [DecidableEq σ]
    (g : GrowthPolicyModel) (mv : V → Except Err V) (szT alT : Nat)
    (s : Storage H) (c : BlockView) (w : World H σ V)
    (hex : hm.AllocExact)
    (hok : (shrink_to_fit hm g mv szT alT s c w).1 = .ok ()) :
    (shrink_to_fit hm g mv szT alT s c w).2.1.block.size
      = g.shrink_size s.block.size (c.count * szT) := by
  by_cases ht : g.shrink_size s.block.size (c.count * szT) = 0
  · have hab : allocate_block hm s.arg (g.shrink_size s.block.size (c.count * szT)) alT w
        = (.ok MemoryBlock.null, w) := by
      rw [ht]
      rfl
    have hr1 := shrink_alloc_ok hm g mv szT alT s c w hab
    cases hud : udMove mv szT c.base MemoryBlock.null.addr c.count w.mem with
    | mk res m' =>
      cases res with
      | error e =>
        rw [hr1, change_block_ud_err hm mv szT s c MemoryBlock.null w hud] at hok
        exact absurd hok (by simp)
      | ok u =>
        rw [hr1, change_block_ud_ok hm mv szT s c MemoryBlock.null w hud, ht]
        rfl
  · cases halloc : hm.allocate s.arg w.heapSt
        (g.shrink_size s.block.size (c.count * szT)) alT with
    | error e =>
      rw [shrink_alloc_err hm g mv szT alT s c w
        (allocate_block_pos_err hm s.arg ht alT w halloc)] at hok
      exact absurd hok (by simp)
    | ok p =>
      obtain ⟨nb, st'⟩ := p
      have hr1 := shrink_alloc_ok hm g mv szT alT s c w
        (allocate_block_pos_ok hm s.arg ht alT w halloc)
      cases hud : udMove mv szT c.base nb.addr c.count w.mem with
      | mk res m' =>
        cases res with
        | error e =>
          rw [hr1, change_block_ud_err hm mv szT s c nb
            { heapSt := st', mem := w.mem,
              events := w.events ++
                [HEvent.alloc (g.shrink_size s.block.size (c.count * szT)) alT],
              live := w.live ++ [(s.arg, nb)] } hud] at hok
          exact absurd hok (by simp)
        | ok u =>
          rw [hr1, change_block_ud_ok hm mv szT s c nb
            { heapSt := st', mem := w.mem,
              events := w.events ++
                [HEvent.alloc (g.shrink_size s.block.size (c.count * szT)) alT],
              live := w.live ++ [(s.arg, nb)] } hud]
          exact hex _ _ _ _ _ _ halloc

/-- Element values after a successful `shrink_to_fit` (value-preserving
infallible move, live view, target block disjoint from the live elements):
the values are alive in the new block in order, the old storage destroyed. -/
lemma shrink_ok_vals (hm : HeapModel H σ) [DecidableEq H] [DecidableEq σ]
    (g : GrowthPolicyModel) (mv : V → Except Err V) (szT alT : Nat)
    (s : Storage H) (c : BlockView) (w : World H σ V) (vals : Nat → V)
    (hShrink : g.ShrinkOk) (hmv : ∀ v, mv v = .ok v) (hsz : 0 < szT)
    (hlive : ∀ i, i < c.count → w.mem (c.base + i * szT) = some (vals i))
    (hok : (shrink_to_fit hm g mv szT alT s c w).1 = .ok ())
    (hdisj : ∀ i j, i < c.count → j < c.count →
      c.base + i * szT ≠ (shrink_to_fit hm g mv szT alT s c w).2.1.block.addr + j * szT) :
    (∀ i, i < c.count →
      (shrink_to_fit hm g mv szT alT s c w).2.2.mem
        ((shrink_to_fit hm g mv szT alT s c w).2.1.block.addr + i * szT) = some (vals i)) ∧
    (∀ i, i < c.count →
      (shrink_to_fit hm g mv szT alT s c w).2.2.mem (c.base + i * szT) = none) := by
  by_cases ht : g.shrink_size s.block.size (c.count * szT) = 0
  · have hL0 : c.count * szT = 0 := by
      have := hShrink s.block.size (c.count * szT)
      omega
    have hc0 : c.count = 0 := by
      rcases Nat.mul_eq_zero.mp hL0 with h | h
      · exact h
      · omega
    exact ⟨fun i hi => absurd hi (by omega), fun i hi => absurd hi (by omega)⟩
  · cases halloc : hm.allocate s.arg w.heapSt
        (g.shrink_size s.block.size (c.count * szT)) alT with
    | error e =>
      rw [shrink_alloc_err hm g mv szT alT s c w
        (allocate_block_pos_err hm s.arg ht alT w halloc)] at hok
      exact absurd hok (by simp)
    | ok p =>
      obtain ⟨nb, st'⟩ := p
      have hr1 := shrink_alloc_ok hm g mv szT alT s c w
        (allocate_block_pos_ok hm s.arg ht alT w halloc)
      cases hud : udMove mv szT c.base nb.addr c.count w.mem with
      | mk res m' =>
        cases res with
        | error e =>
          rw [hr1, change_block_ud_err hm mv szT s c nb
            { heapSt := st', mem := w.mem,
              events := w.events ++
                [HEvent.alloc (g.shrink_size s.block.size (c.count * szT)) alT],
              live := w.live ++ [(s.arg, nb)] } hud] at hok
          exact absurd hok (by simp)
        | ok u =>
          have hr2 : shrink_to_fit hm g mv szT alT s c w =
              (.ok (), { s with block := nb },
                deallocate_block hm s.arg s.block
                  { heapSt := st', mem := m',
                    events := w.events ++
                      [HEvent.alloc (g.shrink_size s.block.size (c.count * szT)) alT],
                    live := w.live ++ [(s.arg, nb)] }) := by
            rw [hr1, change_block_ud_ok hm mv szT s c nb
              { heapSt := st', mem := w.mem,
                events := w.events ++
                  [HEvent.alloc (g.shrink_size s.block.size (c.count * szT)) alT],
                live := w.live ++ [(s.arg, nb)] } hud]
          rw [hr2] at hdisj
          simp only at hdisj
          obtain ⟨-, htgt, hsrc, -⟩ :=
            udMove_ok hmv hsz c.base nb.addr c.count vals w.mem hlive hdisj
          rw [hud] at htgt hsrc
          refine ⟨?_, ?_⟩
          · intro i hi
            rw [hr2]
            simp only [deallocate_block_mem]
            exact htgt i hi
          · intro i hi
            rw [hr2]
            simp only [deallocate_block_mem]
            exact hsrc i hi

/-! Claim theorems. -/

/-- C4: for every call to `reserve` in which `GrowthPolicy::growth_size`
signals CapacityExceeded, the error is surfaced before any allocation
attempt: `Heap::allocate` is never invoked during that call (the full result,
including the heap-call trace, equals the input world) and the storage
object's state is unchanged. -/
theorem reserve_capacity_exceeded_before_alloc
    (hm : HeapModel H σ) [DecidableEq H] [DecidableEq σ]
    (g : GrowthPolicyModel) (mv : V → Except Err V) (szT alT : Nat)
    (s : Storage H) (minb : Nat) (c : BlockView) (w : World H σ V)
    (hg : g.growth_size s.block.size minb (hm.maxSize s.arg)
      = .error Err.capacityExceeded) :
    reserve hm g mv szT alT s minb c w = (.error Err.capacityExceeded, s, w) :=
  reserve_growth_err hm g mv szT alT s minb c w hg

/-- C3: for every call to `reserve` in which `Heap::allocate` fails, the
error is propagated and the storage instance's block and all live element
values are exactly as they were before the call. -/
theorem reserve_alloc_failure_strong
    (hm : HeapModel H σ) [DecidableEq H] [DecidableEq σ]
    (g : GrowthPolicyModel) (mv : V → Except Err V) (szT alT : Nat)
    (s : Storage H) (minb : Nat) (c : BlockView) (w : World H σ V)
    {ns : Nat} {e : Err}
    (hg : g.growth_size s.block.size minb (hm.maxSize s.arg) = .ok ns)
    (hns : ns ≠ 0)
    (hfail : hm.allocate s.arg w.heapSt ns alT = .error e) :
    (reserve hm g mv szT alT s minb c w).1 = .error e ∧
    (reserve hm g mv szT alT s minb c w).2.1 = s ∧
    (reserve hm g mv szT alT s minb c w).2.2.mem = w.mem ∧
    (reserve hm g mv szT alT s minb c w).2.2.live = w.live := by
  rw [reserve_alloc_err hm g mv szT alT s minb c w hg
    (allocate_block_pos_err hm s.arg hns alT w hfail)]
  exact ⟨rfl, rfl, rfl, rfl⟩

/-- C5: `swap` exchanges the two allocator handles, the two blocks and the
two caller-supplied views: afterwards the first instance holds the original
second block and vice versa.  It is a pure exchange — the operation takes no
heap and returns no error, so it cannot throw, allocate, or move element
data. -/
theorem swap_exchanges (a : Storage H) (av : BlockView)
    (b : Storage H) (bv : BlockView) :
    (swapStorage a av b bv).1.block = b.block ∧
    (swapStorage a av b bv).2.2.1.block = a.block ∧
    (swapStorage a av b bv).1.arg = b.arg ∧
    (swapStorage a av b bv).2.2.1.arg = a.arg ∧
    (swapStorage a av b bv).2.1 = bv ∧
    (swapStorage a av b bv).2.2.2 = av :=
  ⟨rfl, rfl, rfl, rfl, rfl, rfl⟩

/-- C9: destruction deallocates the current block unconditionally — a no-op
when the block is empty, exactly one `Heap::deallocate` call otherwise —
and, being a total function into `World`, it never throws. -/
theorem destruct_deallocates (hm : HeapModel H σ) [DecidableEq H]
    [DecidableEq σ] (s : Storage H) (w : World H σ V) :
    destruct hm s w =
      (if s.block.isEmpty then w
       else
        { w with
          heapSt := hm.deallocate s.arg w.heapSt s.block
          events := w.events ++ [HEvent.dealloc s.block]
          live := w.live.erase (s.arg, s.block) }) := by
  by_cases hb : s.block.isEmpty = true
  · rw [if_pos hb]
    exact deallocate_block_empty hm s.arg hb w
  · rw [if_neg hb]
    exact deallocate_block_nonempty hm s.arg (by simpa using hb) w

/-- C2: postcondition of every successful `reserve(min_additional_bytes,
constructed)` call, assuming the GrowthPolicy and Heap contracts, a
value-preserving infallible move constructor, a view lying within the
current block and live in memory, and the freshly allocated block being
disjoint from the live elements: the resulting block has
`size ≥ min_additional_bytes + old live bytes`, every element of the view is
alive in the new block at the same relative index with its value preserved,
and each element's old storage has been destroyed. -/
theorem reserve_success_postcondition
    (hm : HeapModel H σ) [DecidableEq H] [DecidableEq σ]
    (g : GrowthPolicyModel) (mv : V → Except Err V) (szT alT : Nat)
    (s : Storage H) (minb : Nat) (c : BlockView) (w : World H σ V)
    (vals : Nat → V)
    (hAlloc : hm.AllocOk) (hGrowth : g.GrowthOk)
    (hmv : ∀ v, mv v = .ok v) (hsz : 0 < szT)
    (hview : c.count * szT ≤ s.block.size)
    (hlive : ∀ i, i < c.count → w.mem (c.base + i * szT) = some (vals i))
    (hok : (reserve hm g mv szT alT s minb c w).1 = .ok ())
    (hdisj : ∀ i j, i < c.count → j < c.count →
      c.base + i * szT ≠ (reserve hm g mv szT alT s minb c w).2.1.block.addr + j * szT) :
    minb + c.count * szT ≤ (reserve hm g mv szT alT s minb c w).2.1.block.size ∧
    (∀ i, i < c.count →
      (reserve hm g mv szT alT s minb c w).2.2.mem
        ((reserve hm g mv szT alT s minb c w).2.1.block.addr + i * szT) = some (vals i)) ∧
    (∀ i, i < c.count →
      (reserve hm g mv szT alT s minb c w).2.2.mem (c.base + i * szT) = none) :=
  reserve_ok_spec hm g mv szT alT s minb c w vals hAlloc hGrowth hmv hsz hview
    hlive hok hdisj

/-- C1: for every `reserve` or `shrink_to_fit` call in which the element
relocation step raises an error, the newly allocated block is deallocated
(the trace records exactly the allocation and its matching deallocation),
the original error is propagated, and the storage object is unchanged —
`block()` still refers to the old block. -/
theorem relocation_failure_strong_guarantee
    (hm : HeapModel H σ) [DecidableEq H] [DecidableEq σ]
    (g : GrowthPolicyModel) (mv : V → Except Err V) (szT alT : Nat)
    (s : Storage H) (minb : Nat) (c : BlockView) (w : World H σ V)
    {ns : Nat} {nb1 nb2 : MemoryBlock} {st1 st2 : σ} {e1 e2 : Err}
    {m1' m2' : Nat → Option V}
    (hAlloc : hm.AllocOk)
    (hg : g.growth_size s.block.size minb (hm.maxSize s.arg) = .ok ns)
    (hns : ns ≠ 0)
    (ha1 : hm.allocate s.arg w.heapSt ns alT = .ok (nb1, st1))
    (hud1 : udMove mv szT c.base nb1.addr c.count w.mem = (.error e1, m1'))
    (hts : g.shrink_size s.block.size (c.count * szT) ≠ 0)
    (ha2 : hm.allocate s.arg w.heapSt
      (g.shrink_size s.block.size (c.count * szT)) alT = .ok (nb2, st2))
    (hud2 : udMove mv szT c.base nb2.addr c.count w.mem = (.error e2, m2')) :
    ((reserve hm g mv szT alT s minb c w).1 = .error e1 ∧
      (reserve hm g mv szT alT s minb c w).2.1 = s ∧
      (reserve hm g mv szT alT s minb c w).2.2.events =
        w.events ++ [HEvent.alloc ns alT, HEvent.dealloc nb1]) ∧
    ((shrink_to_fit hm g mv szT alT s c w).1 = .error e2 ∧
      (shrink_to_fit hm g mv szT alT s c w).2.1 = s ∧
      (shrink_to_fit hm g mv szT alT s c w).2.2.events =
        w.events ++ [HEvent.alloc (g.shrink_size s.block.size (c.count * szT)) alT,
          HEvent.dealloc nb2]) := by
  have hne1 : nb1.isEmpty = false := by
    obtain ⟨h1, -⟩ := hAlloc _ _ _ _ _ _ ha1
    simp only [MemoryBlock.isEmpty, beq_eq_false_iff_ne, ne_eq]
    omega
  have hne2 : nb2.isEmpty = false := by
    obtain ⟨h2, -⟩ := hAlloc _ _ _ _ _ _ ha2
    simp only [MemoryBlock.isEmpty, beq_eq_false_iff_ne, ne_eq]
    omega
  constructor
  · rw [reserve_alloc_ok hm g mv szT alT s minb c w hg
      (allocate_block_pos_ok hm s.arg hns alT w ha1),
      change_block_ud_err hm mv szT s c nb1
      { heapSt := st1, mem := w.mem,
        events := w.events ++ [HEvent.alloc ns alT],
        live := w.live ++ [(s.arg, nb1)] } hud1,
      deallocate_block_nonempty hm s.arg hne1]
    refine ⟨rfl, rfl, by simp⟩
  · rw [shrink_alloc_ok hm g mv szT alT s c w
      (allocate_block_pos_ok hm s.arg hts alT w ha2),
      change_block_ud_err hm mv szT s c nb2
      { heapSt := st2, mem := w.mem,
        events := w.events ++
          [HEvent.alloc (g.shrink_size s.block.size (c.count * szT)) alT],
        live := w.live ++ [(s.arg, nb2)] } hud2,
      deallocate_block_nonempty hm s.arg hne2]
    refine ⟨rfl, rfl, by simp⟩

/-- C7: calling `shrink_to_fit` twice in a row with no intervening growth
(the second view re-derived at the new block, same element count) produces
the same block size both times, for heaps that record the requested size
exactly and growth policies whose shrink target is idempotent — both laws
named by the spec (no-op shrink and tight fit) are. -/
theorem shrink_to_fit_idempotent_size
    (hm : HeapModel H σ) [DecidableEq H] [DecidableEq σ]
    (g : GrowthPolicyModel) (mv : V → Except Err V) (szT alT : Nat)
    (s : Storage H) (c c2 : BlockView) (w : World H σ V)
    (hex : hm.AllocExact)
    (hid : ∀ o l, g.shrink_size (g.shrink_size o l) l = g.shrink_size o l)
    (hcnt : c2.count = c.count)
    (hok1 : (shrink_to_fit hm g mv szT alT s c w).1 = .ok ())
    (hok2 : (shrink_to_fit hm g mv szT alT
      (shrink_to_fit hm g mv szT alT s c w).2.1 c2
      (shrink_to_fit hm g mv szT alT s c w).2.2).1 = .ok ()) :
    (shrink_to_fit hm g mv szT alT
      (shrink_to_fit hm g mv szT alT s c w).2.1 c2
      (shrink_to_fit hm g mv szT alT s c w).2.2).2.1.block.size
      = (shrink_to_fit hm g mv szT alT s c w).2.1.block.size := by
  have h1 := shrink_ok_size hm g mv szT alT s c w hex hok1
  have h2 := shrink_ok_size hm g mv szT alT
    (shrink_to_fit hm g mv szT alT s c w).2.1 c2
    (shrink_to_fit hm g mv szT alT s c w).2.2 hex hok2
  rw [h2, h1, hcnt]
  exact hid _ _

/-- C6: `shrink_to_fit` targets
`GrowthPolicy.shrink_size(block.size, count * sizeof(T))` through the same
allocate, relocate, deallocate, adopt sequence as `reserve`; hence a
successful `reserve` followed immediately by a successful `shrink_to_fit`
(view re-derived at the new block, no intervening mutation, contracts
satisfied, exact-size heap, target blocks disjoint from the respective live
elements) yields a block whose size equals `shrink_size` applied to the live
byte count, with all element values preserved in order. -/
theorem reserve_then_shrink_to_fit_tight
    (hm : HeapModel H σ) [DecidableEq H] [DecidableEq σ]
    (g : GrowthPolicyModel) (mv : V → Except Err V) (szT alT : Nat)
    (s : Storage H) (minb : Nat) (c : BlockView) (w : World H σ V)
    (vals : Nat → V)
    (hAlloc : hm.AllocOk) (hex : hm.AllocExact) (hGrowth : g.GrowthOk)
    (hShrink : g.ShrinkOk) (hmv : ∀ v, mv v = .ok v) (hsz : 0 < szT)
    (hview : c.count * szT ≤ s.block.size)
    (hlive : ∀ i, i < c.count → w.mem (c.base + i * szT) = some (vals i))
    (hok1 : (reserve hm g mv szT alT s minb c w).1 = .ok ())
    (hdisj1 : ∀ i j, i < c.count → j < c.count →
      c.base + i * szT ≠ (reserve hm g mv szT alT s minb c w).2.1.block.addr + j * szT)
    (hok2 : (shrink_to_fit hm g mv szT alT (reserve hm g mv szT alT s minb c w).2.1
      ⟨(reserve hm g mv szT alT s minb c w).2.1.block.addr, c.count⟩
      (reserve hm g mv szT alT s minb c w).2.2).1 = .ok ())
    (hdisj2 : ∀ i j, i < c.count → j < c.count →
      (reserve hm g mv szT alT s minb c w).2.1.block.addr + i * szT ≠
        (shrink_to_fit hm g mv szT alT (reserve hm g mv szT alT s minb c w).2.1
          ⟨(reserve hm g mv szT alT s minb c w).2.1.block.addr, c.count⟩
          (reserve hm g mv szT alT s minb c w).2.2).2.1.block.addr + j * szT) :
    (shrink_to_fit hm g mv szT alT (reserve hm g mv szT alT s minb c w).2.1
      ⟨(reserve hm g mv szT alT s minb c w).2.1.block.addr, c.count⟩
      (reserve hm g mv szT alT s minb c w).2.2).2.1.block.size
      = g.shrink_size (reserve hm g mv szT alT s minb c w).2.1.block.size
          (c.count * szT) ∧
    (∀ i, i < c.count →
      (shrink_to_fit hm g mv szT alT (reserve hm g mv szT alT s minb c w).2.1
        ⟨(reserve hm g mv szT alT s minb c w).2.1.block.addr, c.count⟩
        (reserve hm g mv szT alT s minb c w).2.2).2.2.mem
        ((shrink_to_fit hm g mv szT alT (reserve hm g mv szT alT s minb c w).2.1
          ⟨(reserve hm g mv szT alT s minb c w).2.1.block.addr, c.count⟩
          (reserve hm g mv szT alT s minb c w).2.2).2.1.block.addr + i * szT)
        = some (vals i)) := by
  obtain ⟨-, hvals1, -⟩ := reserve_ok_spec hm g mv szT alT s minb c w vals
    hAlloc hGrowth hmv hsz hview hlive hok1 hdisj1
  have h2 := shrink_ok_vals hm g mv szT alT
    (reserve hm g mv szT alT s minb c w).2.1
    ⟨(reserve hm g mv szT alT s minb c w).2.1.block.addr, c.count⟩
    (reserve hm g mv szT alT s minb c w).2.2 vals
    hShrink hmv hsz hvals1 hok2 hdisj2
  have hs := shrink_ok_size hm g mv szT alT
    (reserve hm g mv szT alT s minb c w).2.1
    ⟨(reserve hm g mv szT alT s minb c w).2.1.block.addr, c.count⟩
    (reserve hm g mv szT alT s minb c w).2.2 hex hok2
  exact ⟨hs, h2.1⟩

/-- Per-event guard for the implicit claim about heap calls: an allocation
event must request a non-zero size, a deallocation event must carry a
non-empty block. -/
def eventOk : HEvent → Bool
  | .alloc n _ => n != 0
  | .dealloc b => !b.isEmpty

/-- All recorded heap calls are non-trivial. -/
def eventsOk (l : List HEvent) : Bool := l.all eventOk

lemma eventsOk_append {l l' : List HEvent} :
    eventsOk (l ++ l') = (eventsOk l && eventsOk l') :=
  List.all_append

lemma eventsOk_deallocate_block (hm : HeapModel H σ) [DecidableEq H]
    [DecidableEq σ] (h : H) (b : MemoryBlock) (w : World H σ V)
    (hw : eventsOk w.events = true) :
    eventsOk (deallocate_block hm h b w).events = true := by
  by_cases hb : b.isEmpty = true
  · rw [deallocate_block_empty hm h hb w]
    exact hw
  · have hb' : b.isEmpty = false := by simpa using hb
    rw [deallocate_block_nonempty hm h hb' w]
    simp only [eventsOk_append, hw, Bool.true_and]
    simp [eventsOk, eventOk, hb']

lemma eventsOk_allocate_block (hm : HeapModel H σ) [DecidableEq H]
    [DecidableEq σ] (h : H) (n al : Nat) (w : World H σ V)
    (hw : eventsOk w.events = true) :
    eventsOk (allocate_block hm h n al w).2.events = true := by
  by_cases hn : n = 0
  · subst hn
    rw [allocate_block_zero]
    exact hw
  · cases ha : hm.allocate h w.heapSt n al with
    | error e =>
      rw [allocate_block_pos_err hm h hn al w ha]
      simp only [eventsOk_append, hw, Bool.true_and]
      simp [eventsOk, eventOk, hn]
    | ok p =>
      obtain ⟨nb, st'⟩ := p
      rw [allocate_block_pos_ok hm h hn al w ha]
      simp only [eventsOk_append, hw, Bool.true_and]
      simp [eventsOk, eventOk, hn]

lemma eventsOk_change_block (hm : HeapModel H σ) [DecidableEq H]
    [DecidableEq σ] (mv : V → Except Err V) (szT : Nat) (s : Storage H)
    (c : BlockView) (nb : MemoryBlock) (w : World H σ V)
    (hw : eventsOk w.events = true) :
    eventsOk (change_block hm mv szT s c nb w).2.2.events = true := by
  cases hud : udMove mv szT c.base nb.addr c.count w.mem with
  | mk res m' =>
    cases res with
    | error e =>
      rw [change_block_ud_err hm mv szT s c nb w hud]
      exact eventsOk_deallocate_block hm s.arg nb { w with mem := m' } hw
    | ok u =>
      rw [change_block_ud_ok hm mv szT s c nb w hud]
      exact eventsOk_deallocate_block hm s.arg s.block { w with mem := m' } hw

/-- C10: the storage never invokes `Heap::allocate` with a byte size of 0 —
a computed target of 0 yields the canonical empty block without touching
the allocator — and never invokes `Heap::deallocate` with an empty block:
every heap call recorded during `reserve`, `shrink_to_fit` or destruction
is non-trivial whenever the incoming trace is. -/
theorem heap_calls_nontrivial (hm : HeapModel H σ) [DecidableEq H]
    [DecidableEq σ] (g : GrowthPolicyModel) (mv : V → Except Err V)
    (szT alT : Nat) (s : Storage H) (minb : Nat) (c : BlockView)
    (w : World H σ V) (hw : eventsOk w.events = true) :
    eventsOk (reserve hm g mv szT alT s minb c w).2.2.events = true ∧
    eventsOk (shrink_to_fit hm g mv szT alT s c w).2.2.events = true ∧
    eventsOk (destruct hm s w).events = true ∧
    allocate_block hm s.arg 0 alT w = (.ok MemoryBlock.null, w) := by
  refine ⟨?_, ?_, eventsOk_deallocate_block hm s.arg s.block w hw, rfl⟩
  · cases hgrow : g.growth_size s.block.size minb (hm.maxSize s.arg) with
    | error e =>
      rw [reserve_growth_err hm g mv szT alT s minb c w hgrow]
      exact hw
    | ok ns =>
      cases hab : allocate_block hm s.arg ns alT w with
      | mk res w1 =>
        have hw1 : eventsOk w1.events = true := by
          have := eventsOk_allocate_block hm s.arg ns alT w hw
          rw [hab] at this
          exact this
        cases res with
        | error e =>
          rw [reserve_alloc_err hm g mv szT alT s minb c w hgrow hab]
          exact hw1
        | ok nb =>
          rw [reserve_alloc_ok hm g mv szT alT s minb c w hgrow hab]
          exact eventsOk_change_block hm mv szT s c nb w1 hw1
  · cases hab : allocate_block hm s.arg
        (g.shrink_size s.block.size (c.count * szT)) alT w with
    | mk res w1 =>
      have hw1 : eventsOk w1.events = true := by
        have := eventsOk_allocate_block hm s.arg
          (g.shrink_size s.block.size (c.count * szT)) alT w hw
        rw [hab] at this
        exact this
      cases res with
      | error e =>
        rw [shrink_alloc_err hm g mv szT alT s c w hab]
        exact hw1
      | ok nb =>
        rw [shrink_alloc_ok hm g mv szT alT s c w hab]
        exact eventsOk_change_block hm mv szT s c nb w1 hw1

/-- Ownership invariant of a storage object: its current block, when
non-empty, is recorded in the world's ledger of live allocations under this
object's handle (it was allocated through this handle and not yet
deallocated). -/
def OwnInv (s : Storage H) (w : World H σ V) : Prop :=
  s.block.isEmpty = false → (s.arg, s.block) ∈ w.live

lemma change_block_inv (hm : HeapModel H σ) [DecidableEq H] [DecidableEq σ]
    (mv : V → Except Err V) (szT : Nat) (s : Storage H) (c : BlockView)
    (nb : MemoryBlock) (w : World H σ V)
    (hold : s.block.isEmpty = false → (s.arg, s.block) ∈ w.live)
    (hnb : nb.isEmpty = true ∨ ((s.arg, nb) ∈ w.live ∧ nb ≠ s.block)) :
    OwnInv (change_block hm mv szT s c nb w).2.1
      (change_block hm mv szT s c nb w).2.2 := by
  cases hud : udMove mv szT c.base nb.addr c.count w.mem with
  | mk res m' =>
    cases res with
    | error e =>
      rw [change_block_ud_err hm mv szT s c nb w hud]
      intro hbe
      by_cases hnbe : nb.isEmpty = true
      · rw [deallocate_block_empty hm s.arg hnbe]
        exact hold hbe
      · rcases hnb with h | ⟨-, hne⟩
        · exact absurd h hnbe
        · rw [deallocate_block_nonempty hm s.arg (by simpa using hnbe)]
          simp only
          refine (List.mem_erase_of_ne ?_).mpr (hold hbe)
          simp only [ne_eq, Prod.mk.injEq, not_and]
          exact fun _ hc => hne hc.symm
    | ok u =>
      rw [change_block_ud_ok hm mv szT s c nb w hud]
      intro hbe
      rcases hnb with h | ⟨hmem, hne⟩
      · simp only at hbe
        rw [h] at hbe
        exact absurd hbe (by simp)
      · by_cases hobe : s.block.isEmpty = true
        · rw [deallocate_block_empty hm s.arg hobe]
          exact hmem
        · rw [deallocate_block_nonempty hm s.arg (by simpa using hobe)]
          simp only
          refine (List.mem_erase_of_ne ?_).mpr hmem
          simp only [ne_eq, Prod.mk.injEq, not_and]
          exact fun _ hc => hne hc

/-- C8: the ownership invariant — the current block, if non-empty, was
allocated through this object's Heap and handle and not yet deallocated —
is established at construction (the block starts empty and the pure
constructor touches no allocator) and is preserved by `reserve`,
`shrink_to_fit` (whenever the heap hands out a block distinct from the one
currently owned, as any correct heap must) and `swap`. -/
theorem ownership_invariant_preserved (hm : HeapModel H σ) [DecidableEq H]
    [DecidableEq σ] (g : GrowthPolicyModel) (mv : V → Except Err V)
    (szT alT : Nat) :
    (∀ (arg : H) (w : World H σ V), OwnInv (mkStorage arg) w) ∧
    (∀ (s : Storage H) (minb : Nat) (c : BlockView) (w : World H σ V),
      OwnInv s w →
      (∀ ns, g.growth_size s.block.size minb (hm.maxSize s.arg) = .ok ns →
        ∀ nb st', hm.allocate s.arg w.heapSt ns alT = .ok (nb, st') →
          nb ≠ s.block) →
      OwnInv (reserve hm g mv szT alT s minb c w).2.1
        (reserve hm g mv szT alT s minb c w).2.2) ∧
    (∀ (s : Storage H) (c : BlockView) (w : World H σ V),
      OwnInv s w →
      (∀ nb st', hm.allocate s.arg w.heapSt
          (g.shrink_size s.block.size (c.count * szT)) alT = .ok (nb, st') →
        nb ≠ s.block) →
      OwnInv (shrink_to_fit hm g mv szT alT s c w).2.1
        (shrink_to_fit hm g mv szT alT s c w).2.2) ∧
    (∀ (a : Storage H) (av : BlockView) (b : Storage H) (bv : BlockView)
      (w : World H σ V), OwnInv a w → OwnInv b w →
      OwnInv (swapStorage a av b bv).1 w ∧
      OwnInv (swapStorage a av b bv).2.2.1 w) := by
  refine ⟨?_, ?_, ?_, ?_⟩
  · intro arg w hbe
    exact absurd hbe (by simp [mkStorage, MemoryBlock.null, MemoryBlock.isEmpty])
  · intro s minb c w hinv hfresh
    cases hgrow : g.growth_size s.block.size minb (hm.maxSize s.arg) with
    | error e =>
      rw [reserve_growth_err hm g mv szT alT s minb c w hgrow]
      exact hinv
    | ok ns =>
      by_cases h0 : ns = 0
      · subst h0
        rw [reserve_alloc_ok hm g mv szT alT s minb c w hgrow
          (allocate_block_zero hm s.arg alT w)]
        exact change_block_inv hm mv szT s c MemoryBlock.null w hinv (Or.inl rfl)
      · cases halloc : hm.allocate s.arg w.heapSt ns alT with
        | error e =>
          rw [reserve_alloc_err hm g mv szT alT s minb c w hgrow
            (allocate_block_pos_err hm s.arg h0 alT w halloc)]
          exact hinv
        | ok p =>
          obtain ⟨nb, st'⟩ := p
          rw [reserve_alloc_ok hm g mv szT alT s minb c w hgrow
            (allocate_block_pos_ok hm s.arg h0 alT w halloc)]
          refine change_block_inv hm mv szT s c nb _ ?_ ?_
          · intro hbe
            exact List.mem_append_left _ (hinv hbe)
          · refine Or.inr ⟨List.mem_append_right _ (by simp), ?_⟩
            exact hfresh ns hgrow nb st' halloc
  · intro s c w hinv hfresh
    by_cases h0 : g.shrink_size s.block.size (c.count * szT) = 0
    · have hab : allocate_block hm s.arg
          (g.shrink_size s.block.size (c.count * szT)) alT w
          = (.ok MemoryBlock.null, w) := by
        rw [h0]
        rfl
      rw [shrink_alloc_ok hm g mv szT alT s c w hab]
      exact change_block_inv hm mv szT s c MemoryBlock.null w hinv (Or.inl rfl)
    · cases halloc : hm.allocate s.arg w.heapSt
          (g.shrink_size s.block.size (c.count * szT)) alT with
      | error e =>
        rw [shrink_alloc_err hm g mv szT alT s c w
          (allocate_block_pos_err hm s.arg h0 alT w halloc)]
        exact hinv
      | ok p =>
        obtain ⟨nb, st'⟩ := p
        rw [shrink_alloc_ok hm g mv szT alT s c w
          (allocate_block_pos_ok hm s.arg h0 alT w halloc)]
        refine change_block_inv hm mv szT s c nb _ ?_ ?_
        · intro hbe
          exact List.mem_append_left _ (hinv hbe)
        · refine Or.inr ⟨List.mem_append_right _ (by simp), ?_⟩
          exact hfresh nb st' halloc
  · intro a av b bv w hia hib
    exact ⟨hib, hia⟩

/-! Concrete data for exercising the theorems on closed runs: a storage
owning an 8-byte block at address 100 holding one live 8-byte element of
value 7. -/

/-- Value-preserving, infallible move constructor (a trivially relocatable
element type). -/
def mvId : Nat → Except Err Nat := fun v => .ok v

/-- Move constructor that always fails, for exercising the relocation
failure path. -/
def mvFail : Nat → Except Err Nat := fun _ => .error .elementTransferFailure

/-- One live element of value 7 constructed at address 100. -/
def memW : Nat → Option Nat := fun a => if a = 100 then some 7 else none

/-- Storage owning the 8-byte block at address 100. -/
def sW : Storage Unit := ⟨(), ⟨100, 8⟩⟩

/-- View of the one live element at address 100. -/
def cW : BlockView := ⟨100, 1⟩

/-- World for `testHeap` runs: bump counter 0, the single live element, an
empty trace, the owned block in the ledger. -/
def wW : World Unit Nat Nat := ⟨0, memW, [], [((), ⟨100, 8⟩)]⟩

/-- World for `failHeap` runs: the countdown is zero, so the next
allocation fails. -/
def wF : World Unit (Nat × Nat) Nat := ⟨(0, 0), memW, [], [((), ⟨100, 8⟩)]⟩

/-- Values held by the live view. -/
def valsW : Nat → Nat := fun _ => 7

theorem reserve_capacity_exceeded_before_alloc_witness :
    reserve testHeap doublingPolicy mvId 8 8 (mkStorage ()) (2 ^ 20 + 1) ⟨0, 0⟩ wW
      = (.error Err.capacityExceeded, mkStorage (), wW) :=
  reserve_capacity_exceeded_before_alloc testHeap doublingPolicy mvId 8 8
    (mkStorage ()) (2 ^ 20 + 1) ⟨0, 0⟩ wW rfl

theorem reserve_alloc_failure_strong_witness :
    (reserve failHeap doublingPolicy mvId 8 8 sW 8 cW wF).1
      = .error Err.allocationFailure ∧
    (reserve failHeap doublingPolicy mvId 8 8 sW 8 cW wF).2.1 = sW := by
  have h := reserve_alloc_failure_strong failHeap doublingPolicy mvId 8 8 sW 8
    cW wF rfl (by decide) rfl
  exact ⟨h.1, h.2.1⟩

theorem reserve_success_postcondition_witness :
    8 + 1 * 8 ≤ (reserve testHeap doublingPolicy mvId 8 8 sW 8 cW wW).2.1.block.size := by
  have h := reserve_success_postcondition testHeap doublingPolicy mvId 8 8 sW 8
    cW wW valsW testHeap_allocOk doublingPolicy_growthOk (fun v => rfl)
    (by decide) (by decide)
    (by
      intro i hi
      have h0 : i = 0 := by
        have : cW.count = 1 := rfl
        omega
      subst h0
      rfl)
    rfl
    (by
      intro i j hi hj
      have hc : cW.count = 1 := rfl
      have h0 : i = 0 := by omega
      have h1 : j = 0 := by omega
      subst h0
      subst h1
      decide)
  exact h.1

theorem relocation_failure_strong_guarantee_witness :
    (reserve testHeap doublingPolicy mvFail 8 8 sW 8 cW wW).1
      = .error Err.elementTransferFailure ∧
    (reserve testHeap doublingPolicy mvFail 8 8 sW 8 cW wW).2.1 = sW ∧
    (shrink_to_fit testHeap doublingPolicy mvFail 8 8 sW cW wW).2.1 = sW := by
  have h := relocation_failure_strong_guarantee testHeap doublingPolicy mvFail
    8 8 sW 8 cW wW testHeap_allocOk rfl (by decide) rfl rfl (by decide) rfl rfl
  exact ⟨h.1.1, h.1.2.1, h.2.2.1⟩

theorem shrink_to_fit_idempotent_size_witness :
    (shrink_to_fit testHeap doublingPolicy mvId 8 8
      (shrink_to_fit testHeap doublingPolicy mvId 8 8 sW cW wW).2.1 ⟨1, 1⟩
      (shrink_to_fit testHeap doublingPolicy mvId 8 8 sW cW wW).2.2).2.1.block.size
      = (shrink_to_fit testHeap doublingPolicy mvId 8 8 sW cW wW).2.1.block.size :=
  shrink_to_fit_idempotent_size testHeap doublingPolicy mvId 8 8 sW cW ⟨1, 1⟩ wW
    testHeap_allocExact (fun _ _ => rfl) rfl rfl rfl

theorem reserve_then_shrink_to_fit_tight_witness :
    (shrink_to_fit testHeap doublingPolicy mvId 8 8
      (reserve testHeap doublingPolicy mvId 8 8 sW 8 cW wW).2.1
      ⟨(reserve testHeap doublingPolicy mvId 8 8 sW 8 cW wW).2.1.block.addr, cW.count⟩
      (reserve testHeap doublingPolicy mvId 8 8 sW 8 cW wW).2.2).2.1.block.size
      = doublingPolicy.shrink_size
          (reserve testHeap doublingPolicy mvId 8 8 sW 8 cW wW).2.1.block.size
          (cW.count * 8) := by
  have h := reserve_then_shrink_to_fit_tight testHeap doublingPolicy mvId 8 8
    sW 8 cW wW valsW testHeap_allocOk testHeap_allocExact doublingPolicy_growthOk
    doublingPolicy_shrinkOk (fun v => rfl) (by decide) (by decide)
    (by
      intro i hi
      have hc : cW.count = 1 := rfl
      have h0 : i = 0 := by omega
      subst h0
      rfl)
    rfl
    (by
      intro i j hi hj
      have hc : cW.count = 1 := rfl
      have h0 : i = 0 := by omega
      have h1 : j = 0 := by omega
      subst h0
      subst h1
      decide)
    rfl
    (by
      intro i j hi hj
      have hc : cW.count = 1 := rfl
      have h0 : i = 0 := by omega
      have h1 : j = 0 := by omega
      subst h0
      subst h1
      decide)
  exact h.1

theorem ownership_invariant_preserved_witness :
    OwnInv (mkStorage ()) wW ∧
    OwnInv (reserve testHeap doublingPolicy mvId 8 8 sW 8 cW wW).2.1
      (reserve testHeap doublingPolicy mvId 8 8 sW 8 cW wW).2.2 := by
  have h := ownership_invariant_preserved testHeap doublingPolicy mvId 8 8
  refine ⟨h.1 () wW, h.2.1 sW 8 cW wW ?_ ?_⟩
  · intro hbe
    simp [sW, wW]
  · intro ns hns nb st' ha
    simp only [testHeap, wW, Except.ok.injEq, Prod.mk.injEq] at ha
    obtain ⟨rfl, -⟩ := ha
    simp [sW, MemoryBlock.mk.injEq]

theorem heap_calls_nontrivial_witness :
    eventsOk (reserve testHeap doublingPolicy mvId 8 8 sW 8 cW wW).2.2.events = true :=
  (heap_calls_nontrivial testHeap doublingPolicy mvId 8 8 sW 8 cW wW rfl).1

end BlockStorageHeap
